import Mathlib

/-!
Verification of the goose-eggs helper library (src/lib.rs, src/drupal.rs,
src/text.rs).

Rust strings are modelled as `List Char`.  The library's regular expressions
are all of the shape "literal, lazy gap, literal, ..." applied with
leftmost-first (Perl-style) semantics by the Rust `regex` crate; each one is
embedded as an explicit left-to-right scan for the first position where the
next literal matches.  The embedding of each scan is justified in the doc
comment of the corresponding definition.  Form/element names inserted into
the regexes are modelled as literal strings (exact for `get_form_value`,
which escapes the name with `regex::escape`; for `get_form`, which inserts
the name unescaped, the model is exact for names free of regex
metacharacters, which covers every use in the repository).
-/

namespace GooseEggs

/-- Rust `&str`/`String` values are modelled as lists of characters. -/
abbrev Str := List Char

/-- Rust `char::to_ascii_lowercase`: maps `A`..`Z` to `a`..`z`, leaves
every other character unchanged. -/
def lowerChar (c : Char) : Char :=
  if 'A' ≤ c ∧ c ≤ 'Z' then Char.ofNat (c.toNat + 32) else c

/-- Rust `str::to_ascii_lowercase`. -/
def lowerA (s : Str) : Str := s.map lowerChar

/-- Rust `html.replace('\n', "")` — removing every line-feed character. -/
def stripNL (s : Str) : Str := s.filter (fun c => c ≠ '\n')

/-- The regex character class `['"]`: a single or double quote. -/
def isQuote (c : Char) : Bool := c == '\'' || c == '"'

/-- Generic leftmost scanner: `scanM m s` finds the first position of `s`
(scanning left to right) at which the position-matcher `m` succeeds on the
remaining suffix, and returns the consumed preceding characters together
with the remainder produced by `m`.  This is the shared engine for the
embeddings of the library's lazy regexes. -/
def scanM (m : Str → Option Str) : Str → Option (Str × Str)
  | [] => none
  | c :: rest =>
    match m (c :: rest) with
    | some r => some ([], r)
    | none =>
      match scanM m rest with
      | some (pre, r) => some (c :: pre, r)
      | none => none

/-- Helper: `splitFirst pat s` splits `s` around the first occurrence of the
(non-empty, literal) pattern `pat`: the result `(pre, post)` satisfies
`s = pre ++ pat ++ post` with `pre` shortest possible. -/
def splitFirst (pat : Str) (s : Str) : Option (Str × Str) :=
  scanM (fun t => if pat.isPrefixOf t then some (t.drop pat.length) else none) s

/-- Rust `str::contains` (for `valid_text`, `valid_header_value` and the
claim-side form search): does `pat` occur in `s` as a contiguous substring?
An empty pattern always occurs. -/
def containsB (s pat : Str) : Bool := pat.isEmpty || (splitFirst pat s).isSome

/-- Rust `str::replace(pat, rep)`: replace every (leftmost, non-overlapping)
occurrence of the non-empty pattern `pat` by `rep`. -/
def replaceAll (pat rep : Str) : Str → Str
  | [] => []
  | c :: rest =>
    if h : pat ≠ [] ∧ pat.isPrefixOf (c :: rest) then
      rep ++ replaceAll pat rep ((c :: rest).drop pat.length)
    else
      c :: replaceAll pat rep rest
termination_by s => s.length
decreasing_by
  · have hp : 0 < pat.length := List.length_pos.mpr h.1
    simp only [List.length_drop, List.length_cons]
    omega
  · simp

/-! ## src/lib.rs -/

/-- Model of `Validate` (src/lib.rs): items to be validated in a web page response.
`status` stores `(inverse, code)` as in the source. -/
structure Validate where
  status : Option (Bool × Nat)
  title : Option Str
  texts : List Str
  headers : List (Str × Str)
  redirect : Option Bool
deriving DecidableEq

/-- Model of `ValidateBuilder` (src/lib.rs). -/
structure ValidateBuilder where
  status : Option (Bool × Nat)
  title : Option Str
  texts : List Str
  headers : List (Str × Str)
  redirect : Option Bool
deriving DecidableEq

/-- Model of `ValidateBuilder::new`. -/
def ValidateBuilder.new : ValidateBuilder :=
  ⟨none, none, [], [], none⟩

/-- Model of `ValidateBuilder::status` (named `setStatus` because the field is also
called `status`): expect exactly this HTTP status. -/
def ValidateBuilder.setStatus (b : ValidateBuilder) (s : Nat) : ValidateBuilder :=
  { b with status := some (false, s) }

/-- Model of `ValidateBuilder::not_status`: expect any status but this one. -/
def ValidateBuilder.setNotStatus (b : ValidateBuilder) (s : Nat) : ValidateBuilder :=
  { b with status := some (true, s) }

/-- Model of `ValidateBuilder::title` (named `setTitle`; the field is `title`). -/
def ValidateBuilder.setTitle (b : ValidateBuilder) (t : Str) : ValidateBuilder :=
  { b with title := some t }

/-- Model of `ValidateBuilder::text`: push one expected text. -/
def ValidateBuilder.addText (b : ValidateBuilder) (t : Str) : ValidateBuilder :=
  { b with texts := b.texts ++ [t] }

/-- Model of `ValidateBuilder::texts` (named `setTexts`; the field is `texts`). -/
def ValidateBuilder.setTexts (b : ValidateBuilder) (ts : List Str) : ValidateBuilder :=
  { b with texts := ts }

/-- Model of `ValidateBuilder::header`: expect a header to be present, with the
expected value left empty. -/
def ValidateBuilder.addHeader (b : ValidateBuilder) (h : Str) : ValidateBuilder :=
  { b with headers := b.headers ++ [(h, [])] }

/-- Model of `ValidateBuilder::header_value`: expect a header with a value. -/
def ValidateBuilder.addHeaderValue (b : ValidateBuilder) (h v : Str) : ValidateBuilder :=
  { b with headers := b.headers ++ [(h, v)] }

/-- Model of `ValidateBuilder::redirect` (named `setRedirect`; the field is
`redirect`). -/
def ValidateBuilder.setRedirect (b : ValidateBuilder) (r : Bool) : ValidateBuilder :=
  { b with redirect := some r }

/-- Model of `ValidateBuilder::build`. -/
def ValidateBuilder.build (b : ValidateBuilder) : Validate :=
  ⟨b.status, b.title, b.texts, b.headers, b.redirect⟩

/-- Model of `Validate::none`: a `Validate` that performs no validation. -/
def Validate.none : Validate := ValidateBuilder.new.build

/-- The reqwest HTTP response as consumed by `validate_page`: a status code,
a header map (modelled as an association list of name/value pairs; reqwest
stores names lower-cased) and the body.  `body = none` models
`response.text()` failing. -/
structure HttpResponse where
  status : Nat
  headers : List (Str × Str)
  body : Option Str
deriving DecidableEq

/-- The goose `GooseResponse`: whether the request was redirected, and the
`Result`-valued response (`none` models `Err`, i.e. no response from the
server). -/
structure GooseResponse where
  redirected : Bool
  response : Option HttpResponse
deriving DecidableEq

/-- Model of `header_is_set` (src/lib.rs): `headers.contains_key(header)`. -/
def header_is_set (headers : List (Str × Str)) (header : Str) : Bool :=
  headers.any (fun p => p.1 == header)

/-- Model of `valid_header_value` (src/lib.rs): false when the header name is empty;
false when the header is missing; false when the expected value is empty;
otherwise true exactly when the header's (first) value contains the
expected value as a substring. -/
def valid_header_value (headers : List (Str × Str)) (header : Str × Str) : Bool :=
  if header.1 = [] then
    false
  else if header_is_set headers header.1 then
    if header.2 = [] then
      false
    else
      let header_value :=
        match headers.find? (fun p => p.1 == header.1) with
        | some p => p.2
        | none => []
      containsB header_value header.2
  else
    false

/-- Model of `get_html_header` (src/lib.rs), the regex `<head(.*?)</head>` against
the newline-stripped html.  Leftmost-first semantics: a match exists from
a given `<head` iff some `</head>` follows it, so a match exists at all iff
one exists from the first `<head`; the lazy gap runs to the first
following `</head>`.  Returns the whole match. -/
def get_html_header (html : Str) : Option Str :=
  let line := stripNL html
  match splitFirst "<head".data line with
  | none => none
  | some (_, r1) =>
    match splitFirst "</head>".data r1 with
    | none => none
    | some (mid, _) => some ("<head".data ++ mid ++ "</head>".data)

/-- Model of `get_title` (src/lib.rs), the regex `<title>(.*?)</title>` against the
newline-stripped input; returns capture group 1, the text between the
first `<title>` and the first following `</title>`. -/
def get_title (html : Str) : Option Str :=
  let line := stripNL html
  match splitFirst "<title>".data line with
  | none => none
  | some (_, r1) =>
    match splitFirst "</title>".data r1 with
    | none => none
    | some (mid, _) => some mid

/-- Model of `valid_title` (src/lib.rs): extract the header, then the title
(each defaulting to the empty string), and test case-insensitive
containment of the expected title. -/
def valid_title (html : Str) (title : Str) : Bool :=
  let html_header := (get_html_header html).getD []
  let html_title := (get_title html_header).getD []
  containsB (lowerA html_title) (lowerA title)

/-- Model of `valid_text` (src/lib.rs): `html.contains(text)`. -/
def valid_text (html : Str) (text : Str) : Bool :=
  containsB html text

/-- The distinct `user.set_failure` sites of `validate_page`
(src/lib.rs lines 867-1029), in source order. -/
inductive VFail where
  | noResponse
  | redirectFail
  | statusFail
  | headerNotSet (h : Str × Str)
  | headerBadValue (h : Str × Str)
  | parseFail
  | titleFail (t : Str)
  | textFail (t : Str)
deriving DecidableEq

/-- The header loop of `validate_page`: for each expected header, fail if
it is not set, or if a non-empty expected value fails
`valid_header_value`; the first failure exits the loop. -/
def checkHeaders (headers : List (Str × Str)) : List (Str × Str) → Option VFail
  | [] => none
  | h :: rest =>
    if !(header_is_set headers h.1) then
      some (VFail.headerNotSet h)
    else if !(h.2.isEmpty) && !(valid_header_value headers h) then
      some (VFail.headerBadValue h)
    else
      checkHeaders headers rest

/-- The text loop of `validate_page`: fail on the first expected text not
found in the body. -/
def checkTexts (html : Str) : List Str → Option VFail
  | [] => none
  | t :: rest =>
    if !(valid_text html t) then
      some (VFail.textFail t)
    else
      checkTexts html rest

/-- The redirect condition of `validate_page`: a redirect expectation is
configured and `goose.request.redirected` differs from it. -/
def redirectFailed (redirected : Bool) (v : Validate) : Bool :=
  match v.redirect with
  | some redirect => redirected != redirect
  | none => false

/-- The status condition of `validate_page`: with `inverse` the check
fails on equality, without it on inequality; no configured status never
fails. -/
def statusFailed (status : Nat) (v : Validate) : Bool :=
  match v.status with
  | some (inverse, st) => if inverse then status == st else status != st
  | none => false

/-- The title condition of `validate_page`: a configured title that
`valid_title` rejects. -/
def titleFailed (html : Str) (v : Validate) : Bool :=
  match v.title with
  | some title => !(valid_title html title)
  | none => false

/-- Model of `validate_page` (src/lib.rs): returns which `set_failure` site fired
(if any) and the html body it returns.  The source exits at the first
failing check; failure paths recover the body with
`unwrap_or_else(|_| "".to_string())`, modelled by `getD []`.  The boolean
conditions are factored into `redirectFailed`, `statusFailed` and
`titleFailed` above, and the two loops into `checkHeaders` and
`checkTexts`. -/
def validate_page (goose : GooseResponse) (validate : Validate) :
    Option VFail × Str :=
  match goose.response with
  | none => (some VFail.noResponse, [])
  | some response =>
    if redirectFailed goose.redirected validate then
      (some VFail.redirectFail, response.body.getD [])
    else if statusFailed response.status validate then
      (some VFail.statusFail, response.body.getD [])
    else
      match checkHeaders response.headers validate.headers with
      | some f => (some f, response.body.getD [])
      | none =>
        match response.body with
        | none => (some VFail.parseFail, [])
        | some html =>
          if titleFailed html validate then
            (some (VFail.titleFail (validate.title.getD [])), html)
          else
            match checkTexts html validate.texts with
            | some f => (some f, html)
            | none => (none, html)

/-! ## src/drupal.rs -/

/-- The literal alternative `data-drupal-selector="{name}"` of the
`get_form` regex. -/
def ddsLit (name : Str) : Str :=
  "data-drupal-selector=\"".data ++ name ++ "\"".data

/-- The literal alternative `id="{name}"` of the `get_form` regex. -/
def idLit (name : Str) : Str :=
  "id=\"".data ++ name ++ "\"".data

/-- Position matcher for the `(data-drupal-selector|id)="{name}"` part of
the `get_form` regex: at a given suffix, at most one alternative can match
(they start with different characters); on success return the remainder
after the matched literal. -/
def attrMatch (name : Str) (t : Str) : Option Str :=
  if (ddsLit name).isPrefixOf t then
    some (t.drop (ddsLit name).length)
  else if (idLit name).isPrefixOf t then
    some (t.drop (idLit name).length)
  else
    none

/-- Model of `get_form` (src/drupal.rs): the regex
`<form.*?(data-drupal-selector|id)="{name}".*?>(.*?)</form>` against the
newline-stripped html, returning capture group 2, or `""` on no match.

Leftmost-first semantics collapse to successive first-occurrence searches:
if the scan fails after the first `<form` (resp. after the first attribute
occurrence, the first following `>`), it fails from every later starting
point as well, because every later search space is a suffix of the failed
one; so the engine's backtracking never changes the outcome. -/
def get_form (html : Str) (name : Str) : Str :=
  let line := stripNL html
  match splitFirst "<form".data line with
  | none => []
  | some (_, r1) =>
    match scanM (attrMatch name) r1 with
    | none => []
    | some (_, r2) =>
      match splitFirst ">".data r2 with
      | none => []
      | some (_, r3) =>
        match splitFirst "</form>".data r3 with
        | none => []
        | some (capture, _) => capture

/-- The literal part `name="{name}" value=` of the `get_form_value` regex
(the name is regex-escaped in the source, so it is a literal). -/
def fvLit (name : Str) : Str :=
  "name=\"".data ++ name ++ "\" value=".data

/-- A character the lazy gap `(.*?)` of the `get_form_value` regex can
consume before the closing quote: anything except a quote (which instead
closes the capture) or a line feed (which the regex's `.` never matches;
`get_form_value` runs on the raw form html, which is not
newline-stripped). -/
def gapChar (c : Char) : Bool := !(isQuote c) && !(c == '\n')

/-- Position matcher for the `get_form_value` regex
`name="{name}" value=['"](.*?)['"]`: the literal, an opening quote, then
a lazy gap of `gapChar`s ended by a closing quote.  At a given position
the match attempt succeeds only if, after the opening quote, a quote of
either kind appears before any line feed and before the end of the
input; on success return the captured gap.  A position where the literal
occurs but the attempt fails (no opening quote, or a line feed or the
end of input before a closing quote) is skipped, and the engine goes on
to later positions. -/
def fvMatch (name : Str) (t : Str) : Option Str :=
  if (fvLit name).isPrefixOf t then
    match t.drop (fvLit name).length with
    | q :: r =>
      if isQuote q then
        match r.dropWhile gapChar with
        | c :: _ => if isQuote c then some (r.takeWhile gapChar) else none
        | [] => none
      else none
    | [] => none
  else
    none

/-- Model of `get_form_value` (src/drupal.rs): the first (leftmost) match
of `name="{name}" value=['"](.*?)['"]` in the raw form html, returning
capture group 1, or the sentinel `"none"` when there is no match.  Since
the pattern begins with a literal, the leftmost match starts at the first
position where the whole attempt of `fvMatch` succeeds. -/
def get_form_value (form_html : Str) (name : Str) : Str :=
  match scanM (fvMatch name) form_html with
  | none => "none".data
  | some (_, capture) => capture

/-- The six-character pattern `"` decoded by the encoded-form
helpers. -/
def uPat : Str := "\\u0022".data

/-- A double-quote character, the replacement string. -/
def dq : Str := "\"".data

/-- Model of `get_encoded_form_value` (src/drupal.rs): decode quotes
(`replace("\\u0022", "\"")`), then run `get_form_value`. -/
def get_encoded_form_value (form_html : Str) (name : Str) : Str :=
  let decoded_form := replaceAll uPat dq form_html
  get_form_value decoded_form name

/-- Insertion into the `HashMap<&str, String>` used by the form-values
helpers, modelled on an association list: the new binding shadows any old
one. -/
def insertAL (m : List (Str × Str)) (k v : Str) : List (Str × Str) :=
  (k, v) :: m.filter (fun p => !(p.1 == k))

/-- Model of `HashMap::get`, modelled on the association list. -/
def lookupAL (m : List (Str × Str)) (k : Str) : Option Str :=
  (m.find? (fun p => p.1 == k)).map (fun p => p.2)

/-- Model of `get_form_values` (src/drupal.rs): look each element up with
`get_form_value` and collect the results in a map. -/
def get_form_values (form : Str) (elements : List Str) : List (Str × Str) :=
  elements.foldl (fun acc element => insertAL acc element (get_form_value form element)) []

/-- Model of `get_encoded_form_values` (src/drupal.rs): decode quotes once, then
look each element up with `get_form_value` and collect the results. -/
def get_encoded_form_values (form : Str) (elements : List Str) : List (Str × Str) :=
  let decoded_form := replaceAll uPat dq form
  elements.foldl (fun acc element => insertAL acc element (get_form_value decoded_form element)) []

/-- The three early-exit failures of `log_in` (src/drupal.rs lines
617-656) that depend only on the loaded login page. -/
inductive LoginErr where
  | noLoginForm
  | noFormBuildId
  | noFormId
deriving DecidableEq

/-- Equality of `Except` results is decidable (needed to evaluate
`log_in_extract` on concrete pages). -/
instance {ε α : Type} [DecidableEq ε] [DecidableEq α] :
    DecidableEq (Except ε α) := fun x y =>
  match x, y with
  | Except.error a, Except.error b =>
    match decEq a b with
    | isTrue h => isTrue (by rw [h])
    | isFalse h => isFalse (by intro hc; injection hc with hc; exact h hc)
  | Except.error _, Except.ok _ => isFalse (by intro hc; cases hc)
  | Except.ok _, Except.error _ => isFalse (by intro hc; cases hc)
  | Except.ok a, Except.ok b =>
    match decEq a b with
    | isTrue h => isTrue (by rw [h])
    | isFalse h => isFalse (by intro hc; injection hc with hc; exact h hc)

/-- The pure fragment of `log_in` (src/drupal.rs lines 617-656): extract
the `user-login-form`, then `form_build_id` and `form_id`, reporting the
corresponding failure when the extracted string is empty; on success
return the pair of form values posted back. -/
def log_in_extract (login_page : Str) : Except LoginErr (Str × Str) :=
  let login_form := get_form login_page "user-login-form".data
  if login_form = [] then
    Except.error LoginErr.noLoginForm
  else
    let form_build_id := get_form_value login_form "form_build_id".data
    if form_build_id = [] then
      Except.error LoginErr.noFormBuildId
    else
      let form_id := get_form_value login_form "form_id".data
      if form_id = [] then
        Except.error LoginErr.noFormId
      else
        Except.ok (form_build_id, form_id)

/-! ## src/text.rs -/

/-- The 62 characters of rand's `Alphanumeric` distribution. -/
def ALPHANUMERIC : Str :=
  "ABCDEFGHIJKLMNOPQRSTUVWXYZabcdefghijklmnopqrstuvwxyz0123456789".data

/-- One sample of the `Alphanumeric` distribution, driven by an arbitrary
random oracle value. -/
def sampleAlphanumeric (r : Nat) : Char :=
  ALPHANUMERIC.getD (r % 62) 'A'

/-- Model of `random_word` (src/text.rs): take `length` samples of `Alphanumeric`.
The thread RNG is modelled as an oracle `g` giving the raw value of each
successive sample. -/
def random_word (g : Nat → Nat) (length : Nat) : Str :=
  (List.range length).map (fun i => sampleAlphanumeric (g i))

/-- Model of `rng.gen_range(3..12)`: a value in `3..=11`, driven by an arbitrary
oracle value. -/
def gen_range_3_12 (r : Nat) : Nat := 3 + r % 9

/-- Model of `random_words` (src/text.rs): the loop `for _ in 1..number` runs
`number - 1` times, each time pushing a word of `gen_range(3..12)` random
characters; the words are joined with single spaces.  `g` and `h` are the
oracles for the word samples and the length samples. -/
def random_words (g : Nat → Nat → Nat) (h : Nat → Nat) (number : Nat) : Str :=
  List.intercalate [' ']
    ((List.range (number - 1)).map (fun i => random_word (g i) (gen_range_3_12 (h i))))

/-- Spec-side notion of an alphanumeric character (ASCII letter or
digit). -/
def isAlphanumericChar (c : Char) : Bool :=
  ('A' ≤ c && c ≤ 'Z') || ('a' ≤ c && c ≤ 'z') || ('0' ≤ c && c ≤ '9')

/-! ## Spec-side definitions (following the claims' words) -/

/-- Spec-side ranking of `validate_page`'s checks in the order the claim
lists them (response readability, redirect, status, headers, body
readability, title, texts). -/
def rank : VFail → Nat
  | VFail.noResponse => 0
  | VFail.redirectFail => 1
  | VFail.statusFail => 2
  | VFail.headerNotSet _ => 3
  | VFail.headerBadValue _ => 3
  | VFail.parseFail => 4
  | VFail.titleFail _ => 5
  | VFail.textFail _ => 6

/-- Spec-side predicate: the check corresponding to the given failure
fails for this response and this `Validate` (the claim's "at least one
configured check fails, or the response or its body cannot be read"). -/
def kindFails (g : GooseResponse) (v : Validate) : VFail → Prop
  | VFail.noResponse => g.response = none
  | VFail.redirectFail => ∃ r, v.redirect = some r ∧ g.redirected ≠ r
  | VFail.statusFail =>
    ∃ resp, g.response = some resp ∧
      ((∃ s, v.status = some (true, s) ∧ resp.status = s) ∨
       (∃ s, v.status = some (false, s) ∧ resp.status ≠ s))
  | VFail.headerNotSet h =>
    h ∈ v.headers ∧ ∃ resp, g.response = some resp ∧
      header_is_set resp.headers h.1 = false
  | VFail.headerBadValue h =>
    h ∈ v.headers ∧ ∃ resp, g.response = some resp ∧
      header_is_set resp.headers h.1 = true ∧ h.2 ≠ [] ∧
      valid_header_value resp.headers h = false
  | VFail.parseFail => ∃ resp, g.response = some resp ∧ resp.body = none
  | VFail.titleFail t =>
    v.title = some t ∧ ∃ resp html, g.response = some resp ∧
      resp.body = some html ∧ valid_title html t = false
  | VFail.textFail t =>
    t ∈ v.texts ∧ ∃ resp html, g.response = some resp ∧
      resp.body = some html ∧ valid_text html t = false

/-- Spec-side title of a page, following the claim's words: the contents of
the first `<title>...</title>` element found inside the first
`<head>...</head>` region of the html after removing all newline
characters; the empty string when either is missing. -/
def specTitleOf (html : Str) : Str :=
  match splitFirst "<head".data (stripNL html) with
  | none => []
  | some (_, r1) =>
    match splitFirst "</head>".data r1 with
    | none => []
    | some (mid, _) =>
      let region := "<head".data ++ mid ++ "</head>".data
      match splitFirst "<title>".data region with
      | none => []
      | some (_, r2) =>
        match splitFirst "</title>".data r2 with
        | none => []
        | some (t, _) => t

/-- Claim-side form search (fuel-driven so that it evaluates): scan the
forms of the newline-stripped html in order; a form starts at an
occurrence of `<form`, its opening tag runs to the first following `>`,
and its body runs from there to the first following `</form>`; return the
body of the first form whose opening tag contains
`data-drupal-selector="{name}"` or `id="{name}"`, or `""` when there is
none. -/
def formScan (name : Str) : Nat → Str → Str
  | 0, _ => []
  | fuel + 1, s =>
    match splitFirst "<form".data s with
    | none => []
    | some (_, rest) =>
      match splitFirst ">".data rest with
      | none => []
      | some (tag, afterTag) =>
        if containsB tag (ddsLit name) || containsB tag (idLit name) then
          match splitFirst "</form>".data afterTag with
          | none => []
          | some (body, _) => body
        else
          formScan name fuel afterTag

/-- Claim-side `get_form`, following the claim's words: the body of the
first form of the newline-stripped html whose opening tag carries a
`data-drupal-selector` or `id` attribute equal to `name`; the empty
string when no form matches. -/
def specGetForm (html : Str) (name : Str) : Str :=
  formScan name (stripNL html).length (stripNL html)

/-- Spec-side `get_form_value`, following the claim's words: the value
captured at the first position (found by a minimal-index search over all
positions rather than a recursive scan) where the whole pattern
`name="{name}" value=['"](.*?)['"]` matches; the capture, recomputed here
from the index, runs from just after the opening quote to the next quote
of either kind, never crossing a line feed (the regex's `.` does not
match `\n` and the input is not newline-stripped); the sentinel `"none"`
is returned when the pattern matches at no position. -/
def specGetFormValue (s : Str) (name : Str) : Str :=
  match (List.range s.length).find? (fun j => (fvMatch name (s.drop j)).isSome) with
  | none => "none".data
  | some j =>
    let rest := s.drop (j + (fvLit name).length + 1)
    rest.takeWhile gapChar

/-! ## Characterization of the scanners -/

theorem scanM_spec (m : Str → Option Str) :
    ∀ (s pre r : Str), scanM m s = some (pre, r) →
      pre.length < s.length ∧ List.take pre.length s = pre ∧
      m (List.drop pre.length s) = some r ∧
      ∀ j, j < pre.length → m (List.drop j s) = none := by
  intro s
  induction s with
  | nil => intro pre r h; simp [scanM] at h
  | cons c rest ih =>
    intro pre r h
    rw [scanM] at h
    cases hm : m (c :: rest) with
    | some r' =>
      rw [hm] at h
      cases h
      refine ⟨by simp, by simp, by simpa using hm, ?_⟩
      intro j hj
      simp at hj
    | none =>
      rw [hm] at h
      cases hs : scanM m rest with
      | none => rw [hs] at h; cases h
      | some pr =>
        obtain ⟨pre', r'⟩ := pr
        rw [hs] at h
        cases h
        obtain ⟨h1, h2, h3, h4⟩ := ih pre' r hs
        refine ⟨by simpa using h1, ?_, ?_, ?_⟩
        · simpa [List.take_succ_cons] using h2
        · simpa [List.drop_succ_cons] using h3
        · intro j hj
          cases j with
          | zero => simpa using hm
          | succ j' =>
            rw [List.drop_succ_cons]
            exact h4 j' (by simpa using hj)

theorem scanM_none_spec (m : Str → Option Str) :
    ∀ (s : Str), scanM m s = none →
      ∀ j, j < s.length → m (List.drop j s) = none := by
  intro s
  induction s with
  | nil => intro _ j hj; simp at hj
  | cons c rest ih =>
    intro h j hj
    rw [scanM] at h
    cases hm : m (c :: rest) with
    | some r' => rw [hm] at h; cases h
    | none =>
      rw [hm] at h
      cases hs : scanM m rest with
      | some pr => obtain ⟨pre', r'⟩ := pr; rw [hs] at h; cases h
      | none =>
        cases j with
        | zero => simpa using hm
        | succ j' =>
          rw [List.drop_succ_cons]
          exact ih hs j' (by simpa using hj)

theorem scanM_isSome (m : Str → Option Str) (s : Str) (j : Nat)
    (hj : j < s.length) (hm : (m (List.drop j s)).isSome) :
    (scanM m s).isSome := by
  cases h : scanM m s with
  | some pr => simp
  | none =>
    rw [scanM_none_spec m s h j hj] at hm
    simp at hm

theorem splitFirst_some (pat s pre post : Str)
    (h : splitFirst pat s = some (pre, post)) :
    s = pre ++ pat ++ post ∧ ∀ j, j < pre.length → ¬ pat <+: List.drop j s := by
  obtain ⟨h1, h2, h3, h4⟩ := scanM_spec _ s pre post h
  by_cases hp : pat.isPrefixOf (List.drop pre.length s) = true
  · rw [if_pos hp] at h3
    obtain ⟨t, ht⟩ := List.isPrefixOf_iff_prefix.mp hp
    have hd : List.drop pre.length s = pat ++ t := ht.symm
    rw [hd, List.drop_left] at h3
    injection h3 with h3e
    constructor
    · have hsplit := List.take_append_drop pre.length s
      rw [h2, hd, h3e] at hsplit
      rw [← hsplit, List.append_assoc]
    · intro j hj hpre
      have h5 := h4 j hj
      rw [if_pos (List.isPrefixOf_iff_prefix.mpr hpre)] at h5
      cases h5
  · rw [if_neg hp] at h3
    cases h3

theorem splitFirst_none (pat s : Str) (h : splitFirst pat s = none) :
    ∀ j, j < s.length → ¬ pat <+: List.drop j s := by
  intro j hj hpre
  have h5 := scanM_none_spec _ s h j hj
  rw [if_pos (List.isPrefixOf_iff_prefix.mpr hpre)] at h5
  cases h5

theorem splitFirst_isSome_of_decomp (pat a b s : Str) (hpat : pat ≠ [])
    (hs : s = a ++ pat ++ b) : (splitFirst pat s).isSome := by
  have hlen : a.length < s.length := by
    rw [hs]
    simp only [List.length_append]
    have : 0 < pat.length := List.length_pos.mpr hpat
    omega
  have hdrop : List.drop a.length s = pat ++ b := by
    rw [hs, List.append_assoc, List.drop_left]
  have hpre : pat <+: List.drop a.length s := by
    rw [hdrop]
    exact List.prefix_append pat b
  apply scanM_isSome _ s a.length hlen
  rw [if_pos (List.isPrefixOf_iff_prefix.mpr hpre)]
  simp

theorem containsB_iff (s pat : Str) :
    containsB s pat = true ↔ ∃ a b, s = a ++ pat ++ b := by
  by_cases hpat : pat = []
  · subst hpat
    constructor
    · intro _
      exact ⟨[], s, by simp⟩
    · intro _
      simp [containsB]
  · have hne : pat.isEmpty = false := by
      cases pat with
      | nil => exact absurd rfl hpat
      | cons a l => rfl
    rw [containsB, hne, Bool.false_or]
    constructor
    · intro h
      cases hsf : splitFirst pat s with
      | none => rw [hsf] at h; simp at h
      | some pr =>
        obtain ⟨pre, post⟩ := pr
        exact ⟨pre, post, (splitFirst_some pat s pre post hsf).1⟩
    · rintro ⟨a, b, hs⟩
      exact splitFirst_isSome_of_decomp pat a b s hpat hs

theorem find_range_of_scanM_some (m : Str → Option Str) (s pre r : Str)
    (h : scanM m s = some (pre, r)) :
    List.find? (fun j => (m (List.drop j s)).isSome) (List.range s.length)
      = some pre.length := by
  obtain ⟨h1, _, h3, h4⟩ := scanM_spec m s pre r h
  apply List.find?_eq_some.mpr
  refine ⟨by rw [h3]; simp, ?_⟩
  have hsplit : s.length = pre.length + (s.length - pre.length) := by omega
  have hk : s.length - pre.length = (s.length - pre.length - 1) + 1 := by omega
  refine ⟨List.range pre.length,
    List.map (fun x => pre.length + x) (List.map Nat.succ (List.range (s.length - pre.length - 1))), ?_, ?_⟩
  · rw [hsplit, List.range_add, hk, List.range_succ_eq_map]
    simp
  · intro a ha
    have : a < pre.length := List.mem_range.mp ha
    rw [h4 a this]
    simp

theorem find_range_of_scanM_none (m : Str → Option Str) (s : Str)
    (h : scanM m s = none) :
    List.find? (fun j => (m (List.drop j s)).isSome) (List.range s.length)
      = none := by
  apply List.find?_eq_none.mpr
  intro j hj
  rw [scanM_none_spec m s h j (List.mem_range.mp hj)]
  simp

/-! ## Lemmas about the individual checks of `validate_page` -/

theorem redirectFailed_iff (red : Bool) (v : Validate) :
    redirectFailed red v = true ↔ ∃ r, v.redirect = some r ∧ red ≠ r := by
  rw [redirectFailed]
  cases hr : v.redirect with
  | none => simp
  | some r =>
    simp only [bne_iff_ne, ne_eq]
    constructor
    · intro h
      exact ⟨r, rfl, h⟩
    · rintro ⟨r', hr', hne⟩
      cases hr'
      exact hne

theorem statusFailed_iff (st : Nat) (v : Validate) :
    statusFailed st v = true ↔
      ((∃ s, v.status = some (true, s) ∧ st = s) ∨
       (∃ s, v.status = some (false, s) ∧ st ≠ s)) := by
  rw [statusFailed]
  cases hs : v.status with
  | none => simp
  | some p =>
    obtain ⟨inv, s⟩ := p
    cases inv with
    | true =>
      simp only [if_true]
      constructor
      · intro h
        exact Or.inl ⟨s, rfl, by simpa using h⟩
      · rintro (⟨s', hs', he⟩ | ⟨s', hs', hne⟩)
        · cases hs'
          simpa using he
        · cases hs'
    | false =>
      simp only [if_false]
      constructor
      · intro h
        exact Or.inr ⟨s, rfl, by simpa using h⟩
      · rintro (⟨s', hs', he⟩ | ⟨s', hs', hne⟩)
        · cases hs'
        · cases hs'
          simpa using hne

theorem titleFailed_iff (html : Str) (v : Validate) :
    titleFailed html v = true ↔ ∃ t, v.title = some t ∧ valid_title html t = false := by
  rw [titleFailed]
  cases ht : v.title with
  | none => simp
  | some t =>
    simp only [Bool.not_eq_true']
    constructor
    · intro h
      exact ⟨t, rfl, h⟩
    · rintro ⟨t', ht', hne⟩
      cases ht'
      exact hne

theorem checkHeaders_none_iff (hs : List (Str × Str)) :
    ∀ l, checkHeaders hs l = none ↔
      ∀ h ∈ l, header_is_set hs h.1 = true ∧
        (h.2 = [] ∨ valid_header_value hs h = true) := by
  intro l
  induction l with
  | nil => simp [checkHeaders]
  | cons h rest ih =>
    rw [checkHeaders]
    by_cases c1 : header_is_set hs h.1 = true
    · rw [if_neg (by simp [c1])]
      by_cases c2 : h.2 = [] ∨ valid_header_value hs h = true
      · have hc2 : (!(h.2.isEmpty) && !(valid_header_value hs h)) = false := by
          rcases c2 with c2a | c2b
          · simp [c2a]
          · simp [c2b]
        rw [hc2, if_neg (by simp)]
        rw [ih]
        constructor
        · intro hall h' hh'
          rcases List.mem_cons.mp hh' with he | hm
          · subst he
            exact ⟨c1, c2⟩
          · exact hall h' hm
        · intro hall h' hh'
          exact hall h' (List.mem_cons_of_mem _ hh')
      · push_neg at c2
        obtain ⟨c2a, c2b⟩ := c2
        have hc2 : (!(h.2.isEmpty) && !(valid_header_value hs h)) = true := by
          simp only [Bool.and_eq_true, Bool.not_eq_true', Bool.not_eq_true]
          exact ⟨by simpa [List.isEmpty_eq_true] using c2a, by simpa using c2b⟩
        rw [hc2, if_pos rfl]
        constructor
        · intro hcontra
          cases hcontra
        · intro hall
          have := (hall h (by simp)).2
          rcases this with ha | hb
          · exact absurd ha c2a
          · exact absurd hb (by simpa using c2b)
    · rw [if_pos (by simpa using c1)]
      constructor
      · intro hcontra
        cases hcontra
      · intro hall
        exact absurd (hall h (by simp)).1 c1

theorem checkHeaders_some_spec (hs : List (Str × Str)) :
    ∀ l f, checkHeaders hs l = some f →
      ∃ h, h ∈ l ∧
        ((f = VFail.headerNotSet h ∧ header_is_set hs h.1 = false) ∨
         (f = VFail.headerBadValue h ∧ header_is_set hs h.1 = true ∧
           h.2 ≠ [] ∧ valid_header_value hs h = false)) := by
  intro l
  induction l with
  | nil => intro f h; simp [checkHeaders] at h
  | cons h rest ih =>
    intro f hf
    rw [checkHeaders] at hf
    by_cases c1 : header_is_set hs h.1 = true
    · rw [if_neg (by simp [c1])] at hf
      by_cases c2 : (!(h.2.isEmpty) && !(valid_header_value hs h)) = true
      · rw [if_pos c2] at hf
        injection hf with hf
        subst hf
        simp only [Bool.and_eq_true, Bool.not_eq_true', Bool.not_eq_true] at c2
        refine ⟨h, by simp, Or.inr ⟨rfl, c1, ?_, by simpa using c2.2⟩⟩
        simpa [List.isEmpty_eq_true] using c2.1
      · rw [if_neg c2] at hf
        obtain ⟨h', hm, hc⟩ := ih f hf
        exact ⟨h', List.mem_cons_of_mem _ hm, hc⟩
    · rw [if_pos (by simpa using c1)] at hf
      injection hf with hf
      subst hf
      exact ⟨h, by simp, Or.inl ⟨rfl, by simpa using c1⟩⟩

theorem checkTexts_eq_find (html : Str) :
    ∀ ts, checkTexts html ts =
      (ts.find? (fun t => !(valid_text html t))).map VFail.textFail := by
  intro ts
  induction ts with
  | nil => simp [checkTexts]
  | cons t rest ih =>
    rw [checkTexts, List.find?_cons]
    by_cases c : valid_text html t = true
    · rw [if_neg (by simp [c])]
      simp only [c, Bool.not_true]
      exact ih
    · rw [if_pos (by simpa using c)]
      simp only [Bool.not_eq_true] at c
      simp [c]

theorem checkTexts_none_iff (html : Str) (ts : List Str) :
    checkTexts html ts = none ↔ ∀ t ∈ ts, valid_text html t = true := by
  rw [checkTexts_eq_find]
  simp only [Option.map_eq_none', List.find?_eq_none, Bool.not_eq_true']
  constructor
  · intro hall t ht
    have := hall t ht
    simpa using this
  · intro hall t ht
    simp [hall t ht]

theorem checkTexts_some_spec (html : Str) (ts : List Str) (f : VFail)
    (h : checkTexts html ts = some f) :
    ∃ t, t ∈ ts ∧ f = VFail.textFail t ∧ valid_text html t = false := by
  rw [checkTexts_eq_find] at h
  cases hf : ts.find? (fun t => !(valid_text html t)) with
  | none => rw [hf] at h; cases h
  | some t =>
    rw [hf] at h
    injection h with h
    subst h
    refine ⟨t, List.mem_of_find?_eq_some hf, rfl, ?_⟩
    have := List.find?_some hf
    simpa using this

/-! ## Passed checks refute the corresponding failure predicates -/

theorem not_kf_noResponse (g : GooseResponse) (v : Validate) (resp : HttpResponse)
    (hresp : g.response = some resp) : ¬ kindFails g v VFail.noResponse := by
  simp [kindFails, hresp]

theorem not_kf_redirect (g : GooseResponse) (v : Validate)
    (h : redirectFailed g.redirected v = false) :
    ¬ kindFails g v VFail.redirectFail := by
  intro hk
  rw [(redirectFailed_iff g.redirected v).mpr hk] at h
  cases h

theorem not_kf_status (g : GooseResponse) (v : Validate) (resp : HttpResponse)
    (hresp : g.response = some resp) (h : statusFailed resp.status v = false) :
    ¬ kindFails g v VFail.statusFail := by
  rintro ⟨resp', hresp', hcond⟩
  rw [hresp] at hresp'
  injection hresp' with he
  subst he
  rw [(statusFailed_iff resp.status v).mpr hcond] at h
  cases h

theorem not_kf_headers (g : GooseResponse) (v : Validate) (resp : HttpResponse)
    (hresp : g.response = some resp)
    (h : checkHeaders resp.headers v.headers = none) :
    ∀ hd, ¬ kindFails g v (VFail.headerNotSet hd) ∧
      ¬ kindFails g v (VFail.headerBadValue hd) := by
  intro hd
  have hall := (checkHeaders_none_iff resp.headers v.headers).mp h
  constructor
  · rintro ⟨hm, resp', hresp', hset⟩
    rw [hresp] at hresp'
    injection hresp' with he
    subst he
    rw [(hall hd hm).1] at hset
    cases hset
  · rintro ⟨hm, resp', hresp', _, hne, hval⟩
    rw [hresp] at hresp'
    injection hresp' with he
    subst he
    rcases (hall hd hm).2 with ha | hb
    · exact hne ha
    · rw [hb] at hval
      cases hval

theorem not_kf_parse (g : GooseResponse) (v : Validate) (resp : HttpResponse)
    (html : Str) (hresp : g.response = some resp) (hbody : resp.body = some html) :
    ¬ kindFails g v VFail.parseFail := by
  rintro ⟨resp', hresp', hb⟩
  rw [hresp] at hresp'
  injection hresp' with he
  subst he
  rw [hbody] at hb
  cases hb

theorem not_kf_title (g : GooseResponse) (v : Validate) (resp : HttpResponse)
    (html : Str) (hresp : g.response = some resp) (hbody : resp.body = some html)
    (h : titleFailed html v = false) :
    ∀ t, ¬ kindFails g v (VFail.titleFail t) := by
  rintro t ⟨ht, resp', html', hresp', hb, hval⟩
  rw [hresp] at hresp'
  injection hresp' with he
  subst he
  rw [hbody] at hb
  injection hb with hb
  subst hb
  rw [(titleFailed_iff html v).mpr ⟨t, ht, hval⟩] at h
  cases h

theorem not_kf_text (g : GooseResponse) (v : Validate) (resp : HttpResponse)
    (html : Str) (hresp : g.response = some resp) (hbody : resp.body = some html)
    (h : checkTexts html v.texts = none) :
    ∀ t, ¬ kindFails g v (VFail.textFail t) := by
  rintro t ⟨hm, resp', html', hresp', hb, hval⟩
  rw [hresp] at hresp'
  injection hresp' with he
  subst he
  rw [hbody] at hb
  injection hb with hb
  subst hb
  rw [(checkTexts_none_iff html v.texts).mp h t hm] at hval
  cases hval

theorem kf_of_checkHeaders_some (g : GooseResponse) (v : Validate)
    (resp : HttpResponse) (f : VFail) (hresp : g.response = some resp)
    (h : checkHeaders resp.headers v.headers = some f) :
    kindFails g v f ∧ rank f = 3 := by
  obtain ⟨hd, hm, hc⟩ := checkHeaders_some_spec resp.headers v.headers f h
  rcases hc with ⟨hf, hset⟩ | ⟨hf, hset, hne, hval⟩
  · subst hf
    exact ⟨⟨hm, resp, hresp, hset⟩, rfl⟩
  · subst hf
    exact ⟨⟨hm, resp, hresp, hset, hne, hval⟩, rfl⟩

theorem kf_of_checkTexts_some (g : GooseResponse) (v : Validate)
    (resp : HttpResponse) (html : Str) (f : VFail)
    (hresp : g.response = some resp) (hbody : resp.body = some html)
    (h : checkTexts html v.texts = some f) :
    kindFails g v f ∧ rank f = 6 := by
  obtain ⟨t, hm, hf, hval⟩ := checkTexts_some_spec html v.texts f h
  subst hf
  exact ⟨⟨hm, resp, html, hresp, hbody, hval⟩, rfl⟩

/-- Master characterization of `validate_page`: a failure is reported iff
some check fails, and the reported failure is of minimal rank among the
failing checks. -/
theorem validate_page_master (g : GooseResponse) (v : Validate) :
    ((validate_page g v).1 ≠ none ↔ ∃ f, kindFails g v f)
    ∧ (∀ f, (validate_page g v).1 = some f →
        kindFails g v f ∧ ∀ f', kindFails g v f' → rank f ≤ rank f') := by
  cases hresp : g.response with
  | none =>
    have hv : validate_page g v = (some VFail.noResponse, []) := by
      rw [validate_page, hresp]
    rw [hv]
    constructor
    · simp only [ne_eq, Option.some_ne_none, not_false_iff, true_iff]
      exact ⟨VFail.noResponse, hresp⟩
    · intro f hf
      injection hf with hf
      subst hf
      exact ⟨hresp, fun f' _ => Nat.zero_le _⟩
  | some resp =>
    by_cases hrf : redirectFailed g.redirected v = true
    · have hv : validate_page g v = (some VFail.redirectFail, resp.body.getD []) := by
        simp [validate_page, hresp, hrf]
      obtain ⟨r, hr, hne⟩ := (redirectFailed_iff _ _).mp hrf
      rw [hv]
      constructor
      · simp only [ne_eq, Option.some_ne_none, not_false_iff, true_iff]
        exact ⟨VFail.redirectFail, r, hr, hne⟩
      · intro f hf
        injection hf with hf
        subst hf
        refine ⟨⟨r, hr, hne⟩, ?_⟩
        intro f' hk
        cases f' with
        | noResponse => exact absurd hk (not_kf_noResponse g v resp hresp)
        | redirectFail => exact Nat.le_refl _
        | statusFail => simp [rank]
        | headerNotSet h => simp [rank]
        | headerBadValue h => simp [rank]
        | parseFail => simp [rank]
        | titleFail t => simp [rank]
        | textFail t => simp [rank]
    · have hrf' : redirectFailed g.redirected v = false := by
        simpa using hrf
      by_cases hsf : statusFailed resp.status v = true
      · have hv : validate_page g v = (some VFail.statusFail, resp.body.getD []) := by
          simp [validate_page, hresp, hrf', hsf]
        rw [hv]
        have hkstat : kindFails g v VFail.statusFail :=
          ⟨resp, hresp, (statusFailed_iff _ _).mp hsf⟩
        constructor
        · simp only [ne_eq, Option.some_ne_none, not_false_iff, true_iff]
          exact ⟨VFail.statusFail, hkstat⟩
        · intro f hf
          injection hf with hf
          subst hf
          refine ⟨hkstat, ?_⟩
          intro f' hk
          cases f' with
          | noResponse => exact absurd hk (not_kf_noResponse g v resp hresp)
          | redirectFail => exact absurd hk (not_kf_redirect g v hrf')
          | statusFail => exact Nat.le_refl _
          | headerNotSet h => simp [rank]
          | headerBadValue h => simp [rank]
          | parseFail => simp [rank]
          | titleFail t => simp [rank]
          | textFail t => simp [rank]
      · have hsf' : statusFailed resp.status v = false := by
          simpa using hsf
        cases hch : checkHeaders resp.headers v.headers with
        | some fh =>
          have hv : validate_page g v = (some fh, resp.body.getD []) := by
            simp [validate_page, hresp, hrf', hsf', hch]
          rw [hv]
          obtain ⟨hkf, hrank⟩ := kf_of_checkHeaders_some g v resp fh hresp hch
          constructor
          · simp only [ne_eq, Option.some_ne_none, not_false_iff, true_iff]
            exact ⟨fh, hkf⟩
          · intro f hf
            injection hf with hf
            subst hf
            refine ⟨hkf, ?_⟩
            intro f' hk
            rw [hrank]
            cases f' with
            | noResponse => exact absurd hk (not_kf_noResponse g v resp hresp)
            | redirectFail => exact absurd hk (not_kf_redirect g v hrf')
            | statusFail => exact absurd hk (not_kf_status g v resp hresp hsf')
            | headerNotSet h => simp [rank]
            | headerBadValue h => simp [rank]
            | parseFail => simp [rank]
            | titleFail t => simp [rank]
            | textFail t => simp [rank]
        | none =>
          cases hbody : resp.body with
          | none =>
            have hv : validate_page g v = (some VFail.parseFail, []) := by
              simp [validate_page, hresp, hrf', hsf', hch, hbody]
            rw [hv]
            have hkparse : kindFails g v VFail.parseFail := ⟨resp, hresp, hbody⟩
            constructor
            · simp only [ne_eq, Option.some_ne_none, not_false_iff, true_iff]
              exact ⟨VFail.parseFail, hkparse⟩
            · intro f hf
              injection hf with hf
              subst hf
              refine ⟨hkparse, ?_⟩
              intro f' hk
              cases f' with
              | noResponse => exact absurd hk (not_kf_noResponse g v resp hresp)
              | redirectFail => exact absurd hk (not_kf_redirect g v hrf')
              | statusFail => exact absurd hk (not_kf_status g v resp hresp hsf')
              | headerNotSet h => exact absurd hk (not_kf_headers g v resp hresp hch h).1
              | headerBadValue h => exact absurd hk (not_kf_headers g v resp hresp hch h).2
              | parseFail => exact Nat.le_refl _
              | titleFail t => simp [rank]
              | textFail t => simp [rank]
          | some html =>
            by_cases htf : titleFailed html v = true
            · have hv : validate_page g v
                  = (some (VFail.titleFail (v.title.getD [])), html) := by
                simp [validate_page, hresp, hrf', hsf', hch, hbody, htf]
              rw [hv]
              obtain ⟨t, ht, hval⟩ := (titleFailed_iff html v).mp htf
              have hgetd : v.title.getD [] = t := by rw [ht]; rfl
              have hktitle : kindFails g v (VFail.titleFail t) :=
                ⟨ht, resp, html, hresp, hbody, hval⟩
              constructor
              · simp only [ne_eq, Option.some_ne_none, not_false_iff, true_iff]
                exact ⟨VFail.titleFail t, hktitle⟩
              · intro f hf
                injection hf with hf
                subst hf
                rw [hgetd]
                refine ⟨hktitle, ?_⟩
                intro f' hk
                cases f' with
                | noResponse => exact absurd hk (not_kf_noResponse g v resp hresp)
                | redirectFail => exact absurd hk (not_kf_redirect g v hrf')
                | statusFail => exact absurd hk (not_kf_status g v resp hresp hsf')
                | headerNotSet h => exact absurd hk (not_kf_headers g v resp hresp hch h).1
                | headerBadValue h => exact absurd hk (not_kf_headers g v resp hresp hch h).2
                | parseFail => exact absurd hk (not_kf_parse g v resp html hresp hbody)
                | titleFail t' => exact Nat.le_refl _
                | textFail t' => simp [rank]
            · have htf' : titleFailed html v = false := by simpa using htf
              cases hct : checkTexts html v.texts with
              | some ft =>
                have hv : validate_page g v = (some ft, html) := by
                  simp [validate_page, hresp, hrf', hsf', hch, hbody, htf', hct]
                rw [hv]
                obtain ⟨hkf, hrank⟩ := kf_of_checkTexts_some g v resp html ft hresp hbody hct
                constructor
                · simp only [ne_eq, Option.some_ne_none, not_false_iff, true_iff]
                  exact ⟨ft, hkf⟩
                · intro f hf
                  injection hf with hf
                  subst hf
                  refine ⟨hkf, ?_⟩
                  intro f' hk
                  rw [hrank]
                  cases f' with
                  | noResponse => exact absurd hk (not_kf_noResponse g v resp hresp)
                  | redirectFail => exact absurd hk (not_kf_redirect g v hrf')
                  | statusFail => exact absurd hk (not_kf_status g v resp hresp hsf')
                  | headerNotSet h => exact absurd hk (not_kf_headers g v resp hresp hch h).1
                  | headerBadValue h => exact absurd hk (not_kf_headers g v resp hresp hch h).2
                  | parseFail => exact absurd hk (not_kf_parse g v resp html hresp hbody)
                  | titleFail t' => exact absurd hk (not_kf_title g v resp html hresp hbody htf' t')
                  | textFail t' => exact Nat.le_refl _
              | none =>
                have hv : validate_page g v = (none, html) := by
                  simp [validate_page, hresp, hrf', hsf', hch, hbody, htf', hct]
                rw [hv]
                have hnone : ∀ f, ¬ kindFails g v f := by
                  intro f hk
                  cases f with
                  | noResponse => exact (not_kf_noResponse g v resp hresp) hk
                  | redirectFail => exact (not_kf_redirect g v hrf') hk
                  | statusFail => exact (not_kf_status g v resp hresp hsf') hk
                  | headerNotSet h => exact (not_kf_headers g v resp hresp hch h).1 hk
                  | headerBadValue h => exact (not_kf_headers g v resp hresp hch h).2 hk
                  | parseFail => exact (not_kf_parse g v resp html hresp hbody) hk
                  | titleFail t => exact (not_kf_title g v resp html hresp hbody htf' t) hk
                  | textFail t => exact (not_kf_text g v resp html hresp hbody hct t) hk
                constructor
                · constructor
                  · intro hne
                    exact absurd rfl hne
                  · rintro ⟨f, hk⟩
                    exact absurd hk (hnone f)
                · intro f hf
                  cases hf

/-- Model of `validate_page` can only report a status failure when a status
expectation is configured. -/
theorem no_statusFail_of_none (g : GooseResponse) (v : Validate)
    (hst : v.status = none) :
    (validate_page g v).1 ≠ some VFail.statusFail := by
  intro h
  have hk := ((validate_page_master g v).2 _ h).1
  obtain ⟨resp, _, hcond⟩ := hk
  rcases hcond with ⟨s', hs', _⟩ | ⟨s', hs', _⟩
  · rw [hst] at hs'
    cases hs'
  · rw [hst] at hs'
    cases hs'

/-- With only a status check configured and the status condition true,
`validate_page` reports the status failure. -/
theorem validate_page_status_only_fail (g : GooseResponse) (resp : HttpResponse)
    (inv : Bool) (s : Nat) (hresp : g.response = some resp)
    (hc : (if inv then resp.status == s else resp.status != s) = true) :
    (validate_page g ⟨some (inv, s), none, [], [], none⟩).1
      = some VFail.statusFail := by
  have hsf : statusFailed resp.status ⟨some (inv, s), none, [], [], none⟩ = true := by
    rw [statusFailed]
    exact hc
  simp [validate_page, hresp, redirectFailed, hsf]

/-- With only a status check configured and the status condition false,
`validate_page` does not report the status failure. -/
theorem validate_page_status_only_pass (g : GooseResponse) (resp : HttpResponse)
    (inv : Bool) (s : Nat) (hresp : g.response = some resp)
    (hc : (if inv then resp.status == s else resp.status != s) = false) :
    (validate_page g ⟨some (inv, s), none, [], [], none⟩).1
      ≠ some VFail.statusFail := by
  have hsf : statusFailed resp.status ⟨some (inv, s), none, [], [], none⟩ = false := by
    rw [statusFailed]
    exact hc
  cases hbody : resp.body with
  | none =>
    have hv : (validate_page g ⟨some (inv, s), none, [], [], none⟩).1
        = some VFail.parseFail := by
      simp [validate_page, hresp, redirectFailed, hsf, checkHeaders, hbody]
    rw [hv]
    simp
  | some html =>
    have hv : (validate_page g ⟨some (inv, s), none, [], [], none⟩).1 = none := by
      simp [validate_page, hresp, redirectFailed, hsf, checkHeaders, hbody,
        titleFailed, checkTexts]
    rw [hv]
    simp

/-- Claim C1: for every `Validate` and every response, `validate_page`
invokes `user.set_failure` if and only if at least one configured check
fails (redirect, status, a listed header or header value, title, one of
the listed texts) or the response or its body cannot be read; the
reported failure is the first failing check (minimal rank, in source
order); and with `Validate::none()` the only reportable failures are the
response/body read errors — never a check-based failure. -/
theorem validate_page_failure_iff (g : GooseResponse) (v : Validate) :
    ((validate_page g v).1 ≠ none ↔ ∃ f, kindFails g v f)
    ∧ (∀ f, (validate_page g v).1 = some f →
        kindFails g v f ∧ ∀ f', kindFails g v f' → rank f ≤ rank f')
    ∧ (∀ f, (validate_page g Validate.none).1 = some f →
        f = VFail.noResponse ∨ f = VFail.parseFail) := by
  refine ⟨(validate_page_master g v).1, (validate_page_master g v).2, ?_⟩
  intro f hf
  cases hresp : g.response with
  | none =>
    have hv : (validate_page g Validate.none).1 = some VFail.noResponse := by
      simp [validate_page, hresp]
    rw [hv] at hf
    injection hf with hf
    exact Or.inl hf.symm
  | some resp =>
    cases hbody : resp.body with
    | none =>
      have hv : (validate_page g Validate.none).1 = some VFail.parseFail := by
        simp [validate_page, hresp, hbody, Validate.none, ValidateBuilder.new,
          ValidateBuilder.build, redirectFailed, statusFailed, checkHeaders]
      rw [hv] at hf
      injection hf with hf
      exact Or.inr hf.symm
    | some html =>
      have hv : (validate_page g Validate.none).1 = none := by
        simp [validate_page, hresp, hbody, Validate.none, ValidateBuilder.new,
          ValidateBuilder.build, redirectFailed, statusFailed, checkHeaders,
          titleFailed, checkTexts]
      rw [hv] at hf
      cases hf

/-- Witness for C1 at a concrete failed response. -/
theorem validate_page_failure_iff_witness :
    kindFails ⟨false, none⟩ Validate.none VFail.noResponse
    ∧ (VFail.noResponse = VFail.noResponse ∨ VFail.noResponse = VFail.parseFail) := by
  have h := validate_page_failure_iff ⟨false, none⟩ Validate.none
  exact ⟨(h.2.1 VFail.noResponse rfl).1, h.2.2 VFail.noResponse rfl⟩

/-- Claim C2: with `.status(s)` the status check fails iff the response
status differs from `s`; with `.not_status(s)` it fails iff the response
status equals `s`; with no configured status the status code is never
checked. -/
theorem validate_page_status_check (g : GooseResponse) (resp : HttpResponse)
    (s : Nat) (hresp : g.response = some resp) :
    ((validate_page g ((ValidateBuilder.new.setStatus s).build)).1
        = some VFail.statusFail ↔ resp.status ≠ s)
    ∧ ((validate_page g ((ValidateBuilder.new.setNotStatus s).build)).1
        = some VFail.statusFail ↔ resp.status = s)
    ∧ (∀ v : Validate, v.status = none →
        (validate_page g v).1 ≠ some VFail.statusFail) := by
  have hb1 : (ValidateBuilder.new.setStatus s).build
      = (⟨some (false, s), none, [], [], none⟩ : Validate) := rfl
  have hb2 : (ValidateBuilder.new.setNotStatus s).build
      = (⟨some (true, s), none, [], [], none⟩ : Validate) := rfl
  refine ⟨?_, ?_, fun v hv => no_statusFail_of_none g v hv⟩
  · rw [hb1]
    constructor
    · intro h
      intro heq
      exact validate_page_status_only_pass g resp false s hresp (by simp [heq]) h
    · intro hne
      exact validate_page_status_only_fail g resp false s hresp (by simp [hne])
  · rw [hb2]
    constructor
    · intro h
      by_contra hne
      exact validate_page_status_only_pass g resp true s hresp (by simp [hne]) h
    · intro heq
      exact validate_page_status_only_fail g resp true s hresp (by simp [heq])

/-- Witness for C2: status 404 against an expected 200. -/
theorem validate_page_status_check_witness :
    (validate_page ⟨false, some ⟨404, [], some []⟩⟩
        ((ValidateBuilder.new.setStatus 200).build)).1 = some VFail.statusFail := by
  have h := validate_page_status_check ⟨false, some ⟨404, [], some []⟩⟩
    ⟨404, [], some []⟩ 200 rfl
  exact h.1.mpr (by decide)

/-- Claim C4: `valid_text` is exactly case-sensitive substring occurrence,
and with only texts configured `validate_page` reports the first text of
the list missing from the body (no failure iff every text occurs). -/
theorem valid_text_characterization (html text : Str) (red : Bool) (st : Nat)
    (hs : List (Str × Str)) (body : Str) (ts : List Str) :
    (valid_text html text = true ↔ ∃ a b, html = a ++ text ++ b)
    ∧ ((validate_page ⟨red, some ⟨st, hs, some body⟩⟩
          ((ValidateBuilder.new.setTexts ts).build)).1
        = (ts.find? (fun t => !(valid_text body t))).map VFail.textFail)
    ∧ ((validate_page ⟨red, some ⟨st, hs, some body⟩⟩
          ((ValidateBuilder.new.setTexts ts).build)).1 = none
        ↔ ∀ t ∈ ts, ∃ a b, body = a ++ t ++ b) := by
  have hmain : (validate_page ⟨red, some ⟨st, hs, some body⟩⟩
      ((ValidateBuilder.new.setTexts ts).build)).1 = checkTexts body ts := by
    cases hct : checkTexts body ts with
    | none =>
      simp [validate_page, ValidateBuilder.new, ValidateBuilder.setTexts,
        ValidateBuilder.build, redirectFailed, statusFailed, checkHeaders,
        titleFailed, hct]
    | some f =>
      simp [validate_page, ValidateBuilder.new, ValidateBuilder.setTexts,
        ValidateBuilder.build, redirectFailed, statusFailed, checkHeaders,
        titleFailed, hct]
  refine ⟨containsB_iff html text, ?_, ?_⟩
  · rw [hmain, checkTexts_eq_find]
  · rw [hmain, checkTexts_none_iff]
    constructor
    · intro hall t ht
      exact (containsB_iff body t).mp (hall t ht)
    · intro hall t ht
      exact (containsB_iff body t).mpr (hall t ht)

/-- Witness for C4 on a concrete body and text list. -/
theorem valid_text_characterization_witness :
    (valid_text "abcd".data "bc".data = true ↔
      ∃ a b, "abcd".data = a ++ "bc".data ++ b)
    ∧ ((validate_page ⟨false, some ⟨200, [], some "abcd".data⟩⟩
          ((ValidateBuilder.new.setTexts ["xy".data]).build)).1
        = ([ "xy".data ].find? (fun t => !(valid_text "abcd".data t))).map
            VFail.textFail) := by
  have h := valid_text_characterization "abcd".data "bc".data false 200 []
    "abcd".data ["xy".data]
  exact ⟨h.1, h.2.1⟩

/-- Claim C8: `valid_header_value` rejects an empty expected value even when
the header is present, and rejects an empty header name; `validate_page`
with `.header(name)` checks presence only — it reports the header-missing
failure iff the header is absent, and can never report a header-value
failure. -/
theorem header_empty_value_check (hs : List (Str × Str)) (n v : Str)
    (g : GooseResponse) (resp : HttpResponse) (hresp : g.response = some resp) :
    valid_header_value hs (n, []) = false
    ∧ valid_header_value hs ([], v) = false
    ∧ ((validate_page g ((ValidateBuilder.new.addHeader n).build)).1
        = some (VFail.headerNotSet (n, [])) ↔ header_is_set resp.headers n = false)
    ∧ (∀ f, (validate_page g ((ValidateBuilder.new.addHeader n).build)).1 = some f →
        ∀ hd, f ≠ VFail.headerBadValue hd) := by
  have hb : (ValidateBuilder.new.addHeader n).build
      = (⟨none, none, [], [(n, [])], none⟩ : Validate) := rfl
  refine ⟨?_, ?_, ?_, ?_⟩
  · rw [valid_header_value]
    split_ifs with a b c
    · rfl
    · rfl
    · exact absurd rfl c
    · rfl
  · rw [valid_header_value]
    rw [if_pos rfl]
  · rw [hb]
    cases hset : header_is_set resp.headers n with
    | false =>
      have hch : checkHeaders resp.headers [(n, [])]
          = some (VFail.headerNotSet (n, [])) := by
        rw [checkHeaders, if_pos (by simp [hset])]
      have hv : (validate_page g (⟨none, none, [], [(n, [])], none⟩ : Validate)).1
          = some (VFail.headerNotSet (n, [])) := by
        simp [validate_page, hresp, redirectFailed, statusFailed, hch]
      rw [hv]
      simp
    | true =>
      have hch : checkHeaders resp.headers [(n, [])] = none := by
        rw [checkHeaders, if_neg (by simp [hset])]
        rw [if_neg (by simp)]
        rfl
      constructor
      · intro hcontra
        cases hbody : resp.body with
        | none =>
          have hv : (validate_page g (⟨none, none, [], [(n, [])], none⟩ : Validate)).1
              = some VFail.parseFail := by
            simp [validate_page, hresp, redirectFailed, statusFailed, hch, hbody]
          rw [hv] at hcontra
          cases hcontra
        | some html =>
          have hv : (validate_page g (⟨none, none, [], [(n, [])], none⟩ : Validate)).1
              = none := by
            simp [validate_page, hresp, redirectFailed, statusFailed, hch, hbody,
              titleFailed, checkTexts]
          rw [hv] at hcontra
          cases hcontra
      · intro hcontra
        cases hcontra
  · intro f hf hd hfe
    subst hfe
    have hk := ((validate_page_master g _).2 _ hf).1
    obtain ⟨hm, _, _, _, hne, _⟩ := hk
    rw [hb] at hm
    have : hd = (n, []) := by simpa using hm
    rw [this] at hne
    exact hne rfl

/-- Witness for C8 with a concrete absent header. -/
theorem header_empty_value_check_witness :
    valid_header_value [("a".data, "b".data)] ("x".data, []) = false
    ∧ (validate_page ⟨false, some ⟨200, [], some []⟩⟩
        ((ValidateBuilder.new.addHeader "x".data).build)).1
      = some (VFail.headerNotSet ("x".data, [])) := by
  have h := header_empty_value_check [("a".data, "b".data)] "x".data "v".data
    ⟨false, some ⟨200, [], some []⟩⟩ ⟨200, [], some []⟩ rfl
  exact ⟨h.1, h.2.2.1.mpr (by decide)⟩

/-! ## C3: the title check -/

theorem stripNL_no_newline (s : Str) : ∀ c ∈ stripNL s, c ≠ '\n' := by
  intro c hc
  have h := List.mem_filter.mp hc
  simpa using h.2

theorem stripNL_eq_self (s : Str) (h : ∀ c ∈ s, c ≠ '\n') : stripNL s = s := by
  apply List.filter_eq_self.mpr
  intro a ha
  simpa using h a ha

/-- The html title computed by `valid_title` (header, then title, each
defaulting to the empty string) equals the spec-side `specTitleOf`. -/
theorem title_align (html : Str) :
    (get_title ((get_html_header html).getD [])).getD [] = specTitleOf html := by
  cases h1 : splitFirst "<head".data (stripNL html) with
  | none =>
    simp only [get_html_header, specTitleOf, h1]
    rfl
  | some pr =>
    obtain ⟨p1, r1⟩ := pr
    cases h2 : splitFirst "</head>".data r1 with
    | none =>
      simp only [get_html_header, specTitleOf, h1, h2]
      rfl
    | some pr2 =>
      obtain ⟨mid, rest2⟩ := pr2
      have hd1 := (splitFirst_some _ _ _ _ h1).1
      have hd2 := (splitFirst_some _ _ _ _ h2).1
      have hmid : ∀ c ∈ mid, c ≠ '\n' := by
        intro c hc
        apply stripNL_no_newline html c
        rw [hd1, hd2]
        simp [hc]
      have hregion : stripNL ("<head".data ++ mid ++ "</head>".data)
          = "<head".data ++ mid ++ "</head>".data := by
        apply stripNL_eq_self
        intro c hc
        have hlit1 : ∀ x ∈ "<head".data, x ≠ '\n' := by decide
        have hlit2 : ∀ x ∈ "</head>".data, x ≠ '\n' := by decide
        simp only [List.append_assoc, List.mem_append] at hc
        rcases hc with hc | hc | hc
        · exact hlit1 c hc
        · exact hmid c hc
        · exact hlit2 c hc
      simp only [get_html_header, specTitleOf, h1, h2, Option.getD_some, get_title,
        hregion]
      cases h3 : splitFirst "<title>".data ("<head".data ++ mid ++ "</head>".data) with
      | none =>
        rfl
      | some pr3 =>
        obtain ⟨p3, r3⟩ := pr3
        change (match splitFirst "</title>".data r3 with
          | none => (none : Option Str)
          | some (mid, _) => some mid).getD [] =
          (match splitFirst "</title>".data r3 with
          | none => ([] : Str)
          | some (t, _) => t)
        cases h4 : splitFirst "</title>".data r3 with
        | none => rfl
        | some pr4 =>
          obtain ⟨tmid, rest4⟩ := pr4
          rfl

/-- Claim C3: `valid_title(html, t)` is true iff the ASCII-lowercased
contents of the first `<title>` element inside the first `<head>` region
of the newline-stripped html contain the ASCII-lowercased `t`; when the
head or the title is missing, the title is the empty string, so
`valid_title` holds exactly for empty `t`. -/
theorem valid_title_characterization (html t : Str) :
    (valid_title html t = true ↔
      ∃ a b, lowerA (specTitleOf html) = a ++ lowerA t ++ b)
    ∧ ((get_html_header html = none ∨
        get_title ((get_html_header html).getD []) = none) →
        (valid_title html t = true ↔ t = [])) := by
  constructor
  · simp only [valid_title]
    rw [title_align html]
    exact containsB_iff _ _
  · intro hnone
    have htitle : (get_title ((get_html_header html).getD [])).getD [] = [] := by
      rcases hnone with h | h
      · rw [h]
        rfl
      · rw [h]
        rfl
    simp only [valid_title]
    rw [htitle]
    show containsB [] (lowerA t) = true ↔ t = []
    constructor
    · intro h
      have hsf : splitFirst (lowerA t) ([] : Str) = none := rfl
      rw [containsB, hsf] at h
      simp only [Option.isSome_none, Bool.or_false, List.isEmpty_eq_true] at h
      have := congrArg List.length h
      simp only [lowerA, List.length_map, List.length_nil] at this
      exact List.eq_nil_of_length_eq_zero this
    · intro h
      subst h
      rfl

/-- Witness for C3: a title found case-insensitively, and the no-head
case. -/
theorem valid_title_characterization_witness :
    valid_title "<html><head><title>My Example Site</title></head></html>".data
        "EXAMPLE".data = true
    ∧ (valid_title "no head here".data "x".data = true ↔ "x".data = []) := by
  constructor
  · exact ((valid_title_characterization
      "<html><head><title>My Example Site</title></head></html>".data
      "EXAMPLE".data).1).mpr ⟨"my ".data, " site".data, by decide⟩
  · exact (valid_title_characterization "no head here".data "x".data).2
      (Or.inl (by decide))

/-! ## C6: the form-value lookup -/

/-- Claim C6: `get_form_value` returns the value captured at the first
(leftmost) match of `name="{name}" value=['"](.*?)['"]` — here
characterized by a minimal-index search, the capture recomputed from the
index and never crossing a line feed, which the regex's `.` cannot match
on the un-stripped input — and the sentinel `"none"`, a non-empty string,
when the pattern never matches. -/
theorem get_form_value_eq_spec (s name : Str) :
    get_form_value s name = specGetFormValue s name
    ∧ "none".data ≠ ([] : Str) := by
  refine ⟨?_, by decide⟩
  cases hsc : scanM (fvMatch name) s with
  | none =>
    rw [get_form_value, hsc, specGetFormValue, find_range_of_scanM_none _ _ hsc]
  | some pr =>
    obtain ⟨pre, cap⟩ := pr
    have hlhs : get_form_value s name = cap := by
      rw [get_form_value, hsc]
    have hrhs : specGetFormValue s name
        = (s.drop (pre.length + (fvLit name).length + 1)).takeWhile gapChar := by
      rw [specGetFormValue, find_range_of_scanM_some _ _ _ _ hsc]
    obtain ⟨h1, h2, h3, h4⟩ := scanM_spec _ s pre cap hsc
    rw [fvMatch] at h3
    by_cases hp : (fvLit name).isPrefixOf (s.drop pre.length) = true
    · rw [if_pos hp] at h3
      cases hq : List.drop (fvLit name).length (List.drop pre.length s) with
      | nil => rw [hq] at h3; cases h3
      | cons q r =>
        rw [hq] at h3
        have h3' : (if isQuote q = true then
            (match r.dropWhile gapChar with
             | c :: _ => if isQuote c = true then some (r.takeWhile gapChar) else none
             | [] => none)
          else none) = some cap := h3
        by_cases hiq : isQuote q = true
        · rw [if_pos hiq] at h3'
          cases hdw : r.dropWhile gapChar with
          | nil => rw [hdw] at h3'; cases h3'
          | cons c tail =>
            rw [hdw] at h3'
            have h3'' : (if isQuote c = true then
                some (r.takeWhile gapChar) else none) = some cap := h3'
            by_cases hic : isQuote c = true
            · rw [if_pos hic] at h3''
              injection h3'' with h3e
              have h5 : List.drop (pre.length + (fvLit name).length) s = q :: r := by
                rw [← List.drop_drop]
                exact hq
              have hr : r = List.drop (pre.length + (fvLit name).length + 1) s := by
                have h6 := List.drop_drop 1 (pre.length + (fvLit name).length) s
                rw [h5] at h6
                simpa using h6
              rw [hlhs, hrhs, ← hr]
              exact h3e.symm
            · rw [if_neg hic] at h3''
              cases h3''
        · rw [if_neg hiq] at h3'
          cases h3'
    · rw [if_neg hp] at h3
      cases h3

/-! ## C5: the form extraction -/

/-- When the exhibited occurrence of `pat` is the first one, `splitFirst`
splits exactly there. -/
theorem splitFirst_eq (pat a b : Str) (hpat : pat ≠ [])
    (hmin : ∀ j, j < a.length → ¬ pat <+: List.drop j (a ++ pat ++ b)) :
    splitFirst pat (a ++ pat ++ b) = some (a, b) := by
  have hs := splitFirst_isSome_of_decomp pat a b _ hpat rfl
  cases hsf : splitFirst pat (a ++ pat ++ b) with
  | none =>
    rw [hsf] at hs
    simp at hs
  | some pr =>
    obtain ⟨pre, post⟩ := pr
    obtain ⟨hdec, hm⟩ := splitFirst_some _ _ _ _ hsf
    have hge : a.length ≤ pre.length := by
      by_contra hlt
      push_neg at hlt
      apply hmin pre.length hlt
      rw [hdec, List.append_assoc, List.drop_left]
      exact List.prefix_append pat post
    have hle : pre.length ≤ a.length := by
      by_contra hlt
      push_neg at hlt
      apply hm a.length hlt
      rw [List.append_assoc, List.drop_left]
      exact List.prefix_append pat b
    have hlen : pre.length = a.length := Nat.le_antisymm hle hge
    have hpre_eq : pre = a := by
      have h1 : List.take pre.length (a ++ pat ++ b) = pre := by
        rw [hdec, List.append_assoc, List.take_left]
      have h2 : List.take a.length (a ++ pat ++ b) = a := by
        rw [List.append_assoc, List.take_left]
      rw [← h1, hlen, h2]
    subst hpre_eq
    have hpost_eq : post = b := by
      rw [List.append_assoc, List.append_assoc] at hdec
      exact (List.append_cancel_left (List.append_cancel_left hdec.symm))
    rw [hpost_eq]

/-- The `data-drupal-selector` literal starts with `d`. -/
theorem ddsLit_cons (name : Str) :
    ddsLit name = 'd' :: (("ata-drupal-selector=\"".data ++ name) ++ "\"".data) := rfl

/-- The `id` literal starts with `i`. -/
theorem idLit_cons (name : Str) :
    idLit name = 'i' :: (("d=\"".data ++ name) ++ "\"".data) := rfl

/-- The `data-drupal-selector` alternative never matches where the `id`
alternative is exhibited (their first characters differ). -/
theorem not_dds_prefix_of_id (name b : Str) :
    ¬ (ddsLit name) <+: (idLit name ++ b) := by
  rintro ⟨t, ht⟩
  rw [ddsLit_cons, idLit_cons] at ht
  rw [List.cons_append, List.cons_append] at ht
  injection ht with h1 _
  exact absurd h1 (by decide)

/-- When the exhibited occurrence of one of the two attribute literals is
the first occurrence of either, the attribute scanner of `get_form` stops
exactly there. -/
theorem scanAttr_eq (name a b lit : Str)
    (hlit : lit = ddsLit name ∨ lit = idLit name)
    (hmin : ∀ j, j < a.length →
      ¬ ddsLit name <+: List.drop j (a ++ lit ++ b) ∧
      ¬ idLit name <+: List.drop j (a ++ lit ++ b)) :
    scanM (attrMatch name) (a ++ lit ++ b) = some (a, b) := by
  have hdrop : List.drop a.length (a ++ lit ++ b) = lit ++ b := by
    rw [List.append_assoc, List.drop_left]
  have hmatch : attrMatch name (lit ++ b) = some b := by
    rcases hlit with h | h
    · subst h
      rw [attrMatch,
        if_pos (List.isPrefixOf_iff_prefix.mpr (List.prefix_append _ _)),
        List.drop_left]
    · subst h
      have hnd : ¬ (ddsLit name).isPrefixOf (idLit name ++ b) = true := by
        rw [List.isPrefixOf_iff_prefix]
        exact not_dds_prefix_of_id name b
      rw [attrMatch, if_neg hnd,
        if_pos (List.isPrefixOf_iff_prefix.mpr (List.prefix_append _ _)),
        List.drop_left]
  have hlit_ne : lit ≠ [] := by
    rcases hlit with h | h <;> subst h
    · rw [ddsLit_cons]
      exact List.cons_ne_nil _ _
    · rw [idLit_cons]
      exact List.cons_ne_nil _ _
  have hlen : a.length < (a ++ lit ++ b).length := by
    have : 0 < lit.length := List.length_pos.mpr hlit_ne
    simp only [List.length_append]
    omega
  have hsome : (scanM (attrMatch name) (a ++ lit ++ b)).isSome := by
    apply scanM_isSome _ _ a.length hlen
    rw [hdrop, hmatch]
    rfl
  cases hsf : scanM (attrMatch name) (a ++ lit ++ b) with
  | none =>
    rw [hsf] at hsome
    simp at hsome
  | some pr =>
    obtain ⟨pre, r⟩ := pr
    obtain ⟨hl1, hl2, hl3, hl4⟩ := scanM_spec _ _ _ _ hsf
    have hge : a.length ≤ pre.length := by
      by_contra hlt
      push_neg at hlt
      obtain ⟨hd1, hd2⟩ := hmin pre.length hlt
      rw [attrMatch] at hl3
      by_cases c1 : (ddsLit name).isPrefixOf (List.drop pre.length (a ++ lit ++ b)) = true
      · exact hd1 (List.isPrefixOf_iff_prefix.mp c1)
      · rw [if_neg c1] at hl3
        by_cases c2 : (idLit name).isPrefixOf (List.drop pre.length (a ++ lit ++ b)) = true
        · exact hd2 (List.isPrefixOf_iff_prefix.mp c2)
        · rw [if_neg c2] at hl3
          cases hl3
    have hle : pre.length ≤ a.length := by
      by_contra hlt
      push_neg at hlt
      have := hl4 a.length hlt
      rw [hdrop, hmatch] at this
      cases this
    have hlen2 : pre.length = a.length := Nat.le_antisymm hle hge
    have hpre_eq : pre = a := by
      have h1 : List.take pre.length (a ++ lit ++ b) = pre := hl2
      have h2 : List.take a.length (a ++ lit ++ b) = a := by
        rw [List.append_assoc, List.take_left]
      rw [← h1, hlen2, h2]
    subst hpre_eq
    rw [hdrop, hmatch] at hl3
    injection hl3 with hl3
    rw [hl3]

/-- A character absent from `w` cannot head a match before the explicit
occurrence. -/
theorem single_char_first (c : Char) (w y : Str) (hw : c ∉ w) :
    ∀ j, j < w.length → ¬ [c] <+: List.drop j (w ++ [c] ++ y) := by
  intro j hj
  rintro ⟨t, ht⟩
  rw [List.append_assoc, List.drop_append_of_le_length (Nat.le_of_lt hj)] at ht
  cases hwd : List.drop j w with
  | nil =>
    have := List.length_drop j w
    rw [hwd] at this
    simp at this
    omega
  | cons x xs =>
    rw [hwd, List.cons_append, List.cons_append] at ht
    injection ht with h1 _
    apply hw
    have hx : x ∈ List.drop j w := by
      rw [hwd]
      simp
    rw [← h1] at hx
    exact List.drop_subset j w hx

/-- Claim C5 counterexample: in this html the text `id="x"` occurs only in
the form body, not in any opening `<form ...>` tag, so the claim-side
search (`specGetForm`) finds no form and returns `""`; but the lazy regex
of `get_form` matches across the element boundary (its first `.*?` gap
absorbs the end of the opening tag and part of the body, its second gap
absorbs the real `</form>`) and returns `"tail"`. -/
theorem get_form_counterexample :
    get_form "<form>hello id=\"x\" world</form>tail</form>".data "x".data
      = "tail".data
    ∧ specGetForm "<form>hello id=\"x\" world</form>tail</form>".data "x".data = []
    ∧ get_form "<form>hello id=\"x\" world</form>tail</form>".data "x".data
        ≠ specGetForm "<form>hello id=\"x\" world</form>tail</form>".data "x".data := by
  refine ⟨by decide, by decide, by decide⟩

/-- Claim C5 amended: `get_form(html, name)`, on the newline-stripped
html, captures the text between the first `>` following the first
occurrence (after the first `<form`) of `data-drupal-selector="{name}"`
or `id="{name}"`, and the next `</form>`; the attribute occurrence may
lie beyond the form's opening tag (see the counterexample).  When the
first such attribute occurrence does lie inside the opening tag of a form
(no `>` between it and the tag's closing `>`) and the form body contains
no stray `</form>`, the captured text is exactly that form's body, as
this theorem states: here `pre ++ <form ++ u ++ lit ++ w ++ > ++ body ++
</form> ++ post` exhibits the page, `lit` the attribute text, and the
hypotheses say the exhibited occurrences are the first ones. -/
theorem get_form_amended_correct (name pre u w body post lit : Str)
    (hlit : lit = ddsLit name ∨ lit = idLit name)
    (h0 : ∀ c ∈ pre ++ "<form".data ++
        (u ++ lit ++ (w ++ ">".data ++ (body ++ "</form>".data ++ post))),
      c ≠ '\n')
    (h1 : ∀ j, j < pre.length → ¬ "<form".data <+: List.drop j
      (pre ++ "<form".data ++
        (u ++ lit ++ (w ++ ">".data ++ (body ++ "</form>".data ++ post)))))
    (h2 : ∀ j, j < u.length →
      ¬ ddsLit name <+: List.drop j
        (u ++ lit ++ (w ++ ">".data ++ (body ++ "</form>".data ++ post))) ∧
      ¬ idLit name <+: List.drop j
        (u ++ lit ++ (w ++ ">".data ++ (body ++ "</form>".data ++ post))))
    (h3 : '>' ∉ w)
    (h4 : ∀ j, j < body.length →
      ¬ "</form>".data <+: List.drop j (body ++ "</form>".data ++ post)) :
    get_form (pre ++ "<form".data ++
        (u ++ lit ++ (w ++ ">".data ++ (body ++ "</form>".data ++ post))))
      name = body := by
  have hstrip : stripNL (pre ++ "<form".data ++
      (u ++ lit ++ (w ++ ">".data ++ (body ++ "</form>".data ++ post))))
      = pre ++ "<form".data ++
        (u ++ lit ++ (w ++ ">".data ++ (body ++ "</form>".data ++ post))) :=
    stripNL_eq_self _ h0
  have hsp1 : splitFirst "<form".data (pre ++ "<form".data ++
      (u ++ lit ++ (w ++ ">".data ++ (body ++ "</form>".data ++ post))))
      = some (pre, u ++ lit ++ (w ++ ">".data ++ (body ++ "</form>".data ++ post))) :=
    splitFirst_eq _ pre _ (by decide) h1
  have hsp2 : scanM (attrMatch name)
      (u ++ lit ++ (w ++ ">".data ++ (body ++ "</form>".data ++ post)))
      = some (u, w ++ ">".data ++ (body ++ "</form>".data ++ post)) :=
    scanAttr_eq name u _ lit hlit h2
  have hsp3 : splitFirst ">".data
      (w ++ ">".data ++ (body ++ "</form>".data ++ post))
      = some (w, body ++ "</form>".data ++ post) :=
    splitFirst_eq _ w _ (by decide) (single_char_first '>' w _ h3)
  have hsp4 : splitFirst "</form>".data (body ++ "</form>".data ++ post)
      = some (body, post) :=
    splitFirst_eq _ body post (by decide) h4
  simp only [get_form, hstrip, hsp1, hsp2, hsp3, hsp4]

/-- Witness for the amended C5 on a concrete well-formed form. -/
theorem get_form_amended_correct_witness :
    get_form ("<p>".data ++ "<form".data ++ (" class=\"c\" ".data ++
        ddsLit "login".data ++ (" method=\"post\"".data ++ ">".data ++
        ("<input />".data ++ "</form>".data ++ "</html>".data))))
      "login".data = "<input />".data :=
  get_form_amended_correct "login".data "<p>".data " class=\"c\" ".data
    " method=\"post\"".data "<input />".data "</html>".data
    (ddsLit "login".data) (Or.inl rfl) (by decide) (by decide) (by decide)
    (by decide) (by decide)

/-! ## C7: the encoded-form helpers -/

theorem find?_filter_ne (n e : Str) (hne : n ≠ e) :
    ∀ acc : List (Str × Str),
      List.find? (fun p => p.1 == n) (List.filter (fun p => !(p.1 == e)) acc)
        = List.find? (fun p => p.1 == n) acc := by
  intro acc
  induction acc with
  | nil => rfl
  | cons q rest ih =>
    by_cases hq : q.1 = e
    · have h1 : (!(q.1 == e)) = false := by simp [hq]
      have h2 : (q.1 == n) = false := by
        rw [hq]
        exact beq_eq_false_iff_ne.mpr (Ne.symm hne)
      rw [List.filter_cons, if_neg (by simp [h1]),
        @List.find?_cons_of_neg _ (fun p => p.1 == n) q rest (by simp [h2])]
      exact ih
    · have h1 : (!(q.1 == e)) = true := by simp [hq]
      rw [List.filter_cons, if_pos h1]
      cases hqn : q.1 == n with
      | true =>
        rw [@List.find?_cons_of_pos _ (fun p => p.1 == n) q _ hqn,
          @List.find?_cons_of_pos _ (fun p => p.1 == n) q rest hqn]
      | false =>
        rw [@List.find?_cons_of_neg _ (fun p => p.1 == n) q _ (by simp [hqn]),
          @List.find?_cons_of_neg _ (fun p => p.1 == n) q rest (by simp [hqn])]
        exact ih

theorem lookupAL_insert_self (acc : List (Str × Str)) (e v : Str) :
    lookupAL (insertAL acc e v) e = some v := by
  rw [lookupAL, insertAL, List.find?_cons]
  simp

theorem lookupAL_insert_ne (acc : List (Str × Str)) (e v n : Str) (hne : n ≠ e) :
    lookupAL (insertAL acc e v) n = lookupAL acc n := by
  rw [lookupAL, insertAL, List.find?_cons]
  have h2 : ((e, v).1 == n) = false := beq_eq_false_iff_ne.mpr (Ne.symm hne)
  rw [h2, find?_filter_ne n e hne acc, lookupAL]

theorem lookupAL_foldl_not_mem (f : Str → Str) :
    ∀ (names : List Str) (acc : List (Str × Str)) (n : Str), n ∉ names →
      lookupAL (List.foldl (fun acc e => insertAL acc e (f e)) acc names) n
        = lookupAL acc n := by
  intro names
  induction names with
  | nil => intro acc n _; rfl
  | cons e rest ih =>
    intro acc n hn
    rw [List.foldl_cons]
    have hne : n ≠ e := fun h => hn (by rw [h]; simp)
    have hnr : n ∉ rest := fun h => hn (List.mem_cons_of_mem _ h)
    rw [ih _ n hnr, lookupAL_insert_ne acc e (f e) n hne]

theorem lookupAL_foldl_mem (f : Str → Str) :
    ∀ (names : List Str) (acc : List (Str × Str)) (n : Str), n ∈ names →
      lookupAL (List.foldl (fun acc e => insertAL acc e (f e)) acc names) n
        = some (f n) := by
  intro names
  induction names with
  | nil => intro acc n h; cases h
  | cons e rest ih =>
    intro acc n hn
    rw [List.foldl_cons]
    by_cases hr : n ∈ rest
    · exact ih _ n hr
    · have hne : n = e := by
        rcases List.mem_cons.mp hn with h | h
        · exact h
        · exact absurd h hr
      subst hne
      rw [lookupAL_foldl_not_mem f rest _ n hr, lookupAL_insert_self]

/-- Claim C7: the encoded-form helpers are the plain helpers composed with
quote decoding (`replace("\\u0022", "\"")`), and the resulting map sends
every listed name to `get_form_value` of the decoded string. -/
theorem encoded_form_helpers (s name : Str) (names : List Str) :
    get_encoded_form_value s name = get_form_value (replaceAll uPat dq s) name
    ∧ get_encoded_form_values s names = get_form_values (replaceAll uPat dq s) names
    ∧ ∀ n ∈ names, lookupAL (get_encoded_form_values s names) n
        = some (get_form_value (replaceAll uPat dq s) n) := by
  refine ⟨rfl, rfl, ?_⟩
  intro n hn
  exact lookupAL_foldl_mem (fun e => get_form_value (replaceAll uPat dq s) e)
    names [] n hn

/-- Witness for C7 on a concrete BigPipe-style fragment. -/
theorem encoded_form_helpers_witness :
    lookupAL (get_encoded_form_values
        "name=\\u0022fid\\u0022 value=\\u0022abc\\u0022".data ["fid".data])
      "fid".data
    = some (get_form_value
        (replaceAll uPat dq "name=\\u0022fid\\u0022 value=\\u0022abc\\u0022".data)
        "fid".data) :=
  (encoded_form_helpers "name=\\u0022fid\\u0022 value=\\u0022abc\\u0022".data
    "fid".data ["fid".data]).2.2 "fid".data (by decide)

/-! ## C9: random text -/

/-- Claim C9: `random_word(n)` is a string of exactly `n` alphanumeric
characters; `random_words(m)` is `max(m - 1, 0)` such words (each 3 to 11
characters, never 12) joined by single spaces; for `m ≤ 1` it is empty. -/
theorem random_text_spec (g : Nat → Nat) (n : Nat) (g2 : Nat → Nat → Nat)
    (h : Nat → Nat) (m : Nat) :
    (random_word g n).length = n
    ∧ (∀ c ∈ random_word g n, isAlphanumericChar c = true)
    ∧ (∃ ws : List Str, random_words g2 h m = List.intercalate [' '] ws
        ∧ ws.length = m - 1
        ∧ ∀ w ∈ ws, 3 ≤ w.length ∧ w.length ≤ 11 ∧ w.length ≠ 12)
    ∧ (m ≤ 1 → random_words g2 h m = []) := by
  have halpha : ∀ k, k < 62 → isAlphanumericChar (ALPHANUMERIC.getD k 'A') = true := by
    decide
  refine ⟨by simp [random_word], ?_, ?_, ?_⟩
  · intro c hc
    rw [random_word] at hc
    obtain ⟨i, _, hci⟩ := List.mem_map.mp hc
    rw [← hci]
    exact halpha (g i % 62) (Nat.mod_lt _ (by norm_num))
  · refine ⟨(List.range (m - 1)).map
      (fun i => random_word (g2 i) (gen_range_3_12 (h i))), rfl, by simp, ?_⟩
    intro w hw
    obtain ⟨i, _, hwi⟩ := List.mem_map.mp hw
    have hmod : h i % 9 < 9 := Nat.mod_lt _ (by norm_num)
    have hlen : w.length = 3 + h i % 9 := by
      rw [← hwi]
      simp [random_word, gen_range_3_12]
    refine ⟨by omega, by omega, by omega⟩
  · intro hm
    rw [random_words]
    have hz : m - 1 = 0 := by omega
    rw [hz]
    rfl

/-- Witness for C9: 5 samples and the `m = 1` empty sentence. -/
theorem random_text_spec_witness :
    (random_word (fun _ => 0) 5).length = 5
    ∧ random_words (fun _ _ => 0) (fun _ => 0) 1 = [] :=
  ⟨(random_text_spec (fun _ => 0) 5 (fun _ _ => 0) (fun _ => 0) 1).1,
   (random_text_spec (fun _ => 0) 5 (fun _ _ => 0) (fun _ => 0) 1).2.2.2
     (by decide)⟩

/-! ## C10: the login guards -/

/-- If `get_form_value` returns the empty string, the form does contain the
element — with an empty value: the matched opening quote is immediately
followed by a closing quote. -/
theorem get_form_value_empty (form name : Str)
    (h : get_form_value form name = []) :
    ∃ a q₁ q₂ b, form = a ++ fvLit name ++ q₁ :: q₂ :: b
      ∧ isQuote q₁ = true ∧ isQuote q₂ = true := by
  rw [get_form_value] at h
  cases hsc : scanM (fvMatch name) form with
  | none =>
    rw [hsc] at h
    exact absurd h (by decide)
  | some pr =>
    obtain ⟨pre, cap⟩ := pr
    rw [hsc] at h
    have hcap : cap = [] := h
    obtain ⟨_, _, hl3, _⟩ := scanM_spec _ _ _ _ hsc
    rw [fvMatch] at hl3
    by_cases hp : (fvLit name).isPrefixOf (List.drop pre.length form) = true
    · rw [if_pos hp] at hl3
      obtain ⟨t, ht⟩ := List.isPrefixOf_iff_prefix.mp hp
      cases hqt : List.drop (fvLit name).length (List.drop pre.length form) with
      | nil => rw [hqt] at hl3; cases hl3
      | cons q1 r =>
        rw [hqt] at hl3
        have hl3' : (if isQuote q1 = true then
            (match r.dropWhile gapChar with
             | c :: _ => if isQuote c = true then some (r.takeWhile gapChar) else none
             | [] => none)
          else none) = some cap := hl3
        by_cases hiq : isQuote q1 = true
        · rw [if_pos hiq] at hl3'
          cases hdw : r.dropWhile gapChar with
          | nil => rw [hdw] at hl3'; cases hl3'
          | cons q2 tail =>
            rw [hdw] at hl3'
            have hl3'' : (if isQuote q2 = true then
                some (r.takeWhile gapChar) else none) = some cap := hl3'
            by_cases hic : isQuote q2 = true
            · rw [if_pos hic] at hl3''
              injection hl3'' with he
              have htw : r.takeWhile gapChar = [] := by
                rw [he, hcap]
              have hrq : r = q2 :: tail := by
                have hcat := List.takeWhile_append_dropWhile gapChar r
                rw [htw, hdw] at hcat
                simpa using hcat.symm
              have htq : t = q1 :: r := by
                rw [← ht, List.drop_left] at hqt
                exact hqt
              refine ⟨List.take pre.length form, q1, q2, tail, ?_, hiq, hic⟩
              have hform := List.take_append_drop pre.length form
              rw [← ht, htq, hrq] at hform
              rw [List.append_assoc]
              exact hform.symm
            · rw [if_neg hic] at hl3''
              cases hl3''
        · rw [if_neg hiq] at hl3'
          cases hl3'
    · rw [if_neg hp] at hl3
      cases hl3

/-- When the `name="{name}" value=` literal never occurs, `get_form_value`
returns the non-empty sentinel. -/
theorem get_form_value_missing (form name : Str)
    (h : ∀ j, ¬ fvLit name <+: List.drop j form) :
    get_form_value form name = "none".data ∧ "none".data ≠ ([] : Str) := by
  refine ⟨?_, by decide⟩
  cases hsc : scanM (fvMatch name) form with
  | none => rw [get_form_value, hsc]
  | some pr =>
    obtain ⟨pre, rest⟩ := pr
    obtain ⟨_, _, hl3, _⟩ := scanM_spec _ _ _ _ hsc
    rw [fvMatch] at hl3
    by_cases hp : (fvLit name).isPrefixOf (List.drop pre.length form) = true
    · exact absurd (List.isPrefixOf_iff_prefix.mp hp) (h pre.length)
    · rw [if_neg hp] at hl3
      cases hl3

/-- Claim C10: the `form_build_id.is_empty()` / `form_id.is_empty()` failure
branches of `log_in` can fire only when the login form contains the
element with an empty `value` attribute: a missing element yields the
non-empty sentinel `"none"`, never the empty string. -/
theorem log_in_guards (page : Str) :
    (log_in_extract page = Except.error LoginErr.noFormBuildId →
      ∃ a q₁ q₂ b, get_form page "user-login-form".data
          = a ++ fvLit "form_build_id".data ++ q₁ :: q₂ :: b
        ∧ isQuote q₁ = true ∧ isQuote q₂ = true)
    ∧ (log_in_extract page = Except.error LoginErr.noFormId →
      ∃ a q₁ q₂ b, get_form page "user-login-form".data
          = a ++ fvLit "form_id".data ++ q₁ :: q₂ :: b
        ∧ isQuote q₁ = true ∧ isQuote q₂ = true)
    ∧ (∀ form name, (∀ j, ¬ fvLit name <+: List.drop j form) →
        get_form_value form name = "none".data ∧ "none".data ≠ ([] : Str)) := by
  refine ⟨?_, ?_, fun form name h => get_form_value_missing form name h⟩
  · intro h
    simp only [log_in_extract] at h
    by_cases hform : get_form page "user-login-form".data = []
    · rw [if_pos hform] at h
      injection h with h
      cases h
    · rw [if_neg hform] at h
      by_cases hfb : get_form_value (get_form page "user-login-form".data)
          "form_build_id".data = []
      · exact get_form_value_empty _ _ hfb
      · rw [if_neg hfb] at h
        by_cases hfi : get_form_value (get_form page "user-login-form".data)
            "form_id".data = []
        · rw [if_pos hfi] at h
          injection h with h
          cases h
        · rw [if_neg hfi] at h
          cases h
  · intro h
    simp only [log_in_extract] at h
    by_cases hform : get_form page "user-login-form".data = []
    · rw [if_pos hform] at h
      injection h with h
      cases h
    · rw [if_neg hform] at h
      by_cases hfb : get_form_value (get_form page "user-login-form".data)
          "form_build_id".data = []
      · rw [if_pos hfb] at h
        injection h with h
        cases h
      · rw [if_neg hfb] at h
        by_cases hfi : get_form_value (get_form page "user-login-form".data)
            "form_id".data = []
        · exact get_form_value_empty _ _ hfi
        · rw [if_neg hfi] at h
          cases h

/-- Witness for C10: a login form whose `form_build_id` has an empty
value. -/
theorem log_in_guards_witness :
    ∃ a q₁ q₂ b,
      get_form "<form id=\"user-login-form\">x name=\"form_build_id\" value=\"\" y</form>".data
          "user-login-form".data
        = a ++ fvLit "form_build_id".data ++ q₁ :: q₂ :: b
      ∧ isQuote q₁ = true ∧ isQuote q₂ = true :=
  (log_in_guards
    "<form id=\"user-login-form\">x name=\"form_build_id\" value=\"\" y</form>".data).1
    (by decide)

end GooseEggs
